import Mathlib

/-!
Shallow embedding of `jira_time_logs.py` (Pryowin/JiraTimeTracking).

The repository is a single pipeline: validate a "YYYY-MM" month specifier,
resolve the month's first/last day, fetch worklogs from the tracker, group
and sum hours per (assignee, ticket, summary), and write the report to a
file.  Python floats are modelled as rationals (`ℚ`), Python `None`/string
inputs as an inductive `PyValue`, `ValueError` as `Except DateError`, and
the file-writing side effect as a `SaveEffect` value describing what would
be written.  The wall clock (`datetime.now()`, `date.today()`) is passed in
explicitly as `currentYear` / `today` parameters.
-/

namespace JiraTimeLogs

/-- A calendar date (year, month, day), compared lexicographically like
Python `datetime.date`. -/
structure Date where
  year : ℕ
  month : ℕ
  day : ℕ
deriving DecidableEq, Repr

/-- Python `date` ordering: lexicographic on (year, month, day). -/
def dateLe (a b : Date) : Prop :=
  a.year < b.year ∨ (a.year = b.year ∧
    (a.month < b.month ∨ (a.month = b.month ∧ a.day ≤ b.day)))

instance : DecidableRel dateLe := fun a b => by
  unfold dateLe; infer_instance

/-- The possible Python values handed to `validate_date_format`:
`None`, a string, or any other (non-string) object. -/
inductive PyValue where
  | pyNone
  | pyStr (s : String)
  | pyOther
deriving DecidableEq, Repr

/-- The `ValueError`s raised by `validate_date_format`, split by the error
kind named in the specification; each carries the Python message text. -/
inductive DateError where
  | invalidFormat (msg : String)
  | yearOutOfRange (msg : String)
  | monthOutOfRange (msg : String)
deriving DecidableEq, Repr

/-- Whether a `DateError` is an `InvalidFormat` error. -/
def DateError.isInvalidFormat : DateError → Bool
  | .invalidFormat _ => true
  | _ => false

/-- Interpret a list of decimal digit characters as a number,
as Python `int` does on a digit string. -/
def digitsToNat (cs : List Char) : ℕ :=
  cs.foldl (fun n c => 10 * n + (c.toNat - 48)) 0

/-- The strings matched by the pattern `\d{4}-\d{2}` anchored at both ends
of the string proper: exactly four digits, a literal `-`, two digits. -/
def matchesExact (s : String) : Bool :=
  let cs := s.toList
  cs.length == 7 && (cs.take 4).all Char.isDigit &&
    cs.getD 4 ' ' == '-' && (cs.drop 5).all Char.isDigit

/-- The strings accepted by Python `re.match(r'^\d{4}-\d{2}$', s)`: the
un-anchored body, where `$` matches either at the end of the string or just
before a single trailing newline.  So `"2024-03\n"` is accepted. -/
def matchesYYYYMM (s : String) : Bool :=
  matchesExact s ||
    (s.toList.getLast? == some '\n' && matchesExact (String.mk s.toList.dropLast))

/-- The year parsed by `int` from the first `split('-')` component of a
matched string (characters 0-3). -/
def yearOf (s : String) : ℕ := digitsToNat (s.toList.take 4)

/-- The month parsed by `int` from the second `split('-')` component of a
matched string (characters 5-6; `int` ignores a trailing newline). -/
def monthOf (s : String) : ℕ := digitsToNat ((s.toList.drop 5).take 2)

/-- `validate_date_format` from `jira_time_logs.py`: `None` passes through
as `None`; a non-string raises; an empty string raises; a string failing the
regex raises; then the year must lie in `[2000, currentYear + 1]` and the
month in `[1, 12]`; on success returns the `(year, month)` pair. -/
def validate_date_format (currentYear : ℕ) (v : PyValue) :
    Except DateError (Option (ℕ × ℕ)) :=
  match v with
  | .pyNone => .ok Option.none
  | .pyOther =>
      .error (.invalidFormat "Date must be a string in format YYYY-MM (e.g., 2024-03)")
  | .pyStr s =>
      if s = "" then .error (.invalidFormat "Date string cannot be empty")
      else if matchesYYYYMM s then
        if yearOf s < 2000 ∨ currentYear + 1 < yearOf s then
          .error (.yearOutOfRange s!"Year must be between 2000 and {currentYear + 1}")
        else if monthOf s < 1 ∨ 12 < monthOf s then
          .error (.monthOutOfRange "Month must be between 01 and 12")
        else .ok (some (yearOf s, monthOf s))
      else .error (.invalidFormat "Date must be in format YYYY-MM (e.g., 2024-03)")

/-- The Gregorian leap-year rule used by Python's `calendar` module:
divisible by 4, except centuries not divisible by 400. -/
def isLeapYear (y : ℕ) : Bool :=
  y % 4 == 0 && (y % 100 != 0 || y % 400 == 0)

/-- `calendar.monthrange(year, month)[1]`: the number of days in the
month. -/
def daysInMonth (y m : ℕ) : ℕ :=
  if m == 2 then (if isLeapYear y then 29 else 28)
  else if m == 4 || m == 6 || m == 9 || m == 11 then 30
  else 31

/-- `get_month_range`: if either argument is `None`, both default to
today's year and month; returns the first and last day of the month. -/
def get_month_range (today : Date) (year month : Option ℕ) : Date × Date :=
  match year, month with
  | some y, some m => (⟨y, m, 1⟩, ⟨y, m, daysInMonth y m⟩)
  | _, _ =>
      (⟨today.year, today.month, 1⟩,
       ⟨today.year, today.month, daysInMonth today.year today.month⟩)

/-- One worklog entry of an issue, as exposed by the tracker API: author
display name, the date part of the `started` timestamp, and the duration
in seconds. -/
structure Worklog where
  authorDisplayName : String
  startedDate : Date
  timeSpentSeconds : ℕ
deriving DecidableEq, Repr

/-- One issue returned by the tracker's search query, with its full
worklog history. -/
structure Issue where
  key : String
  summary : String
  worklogs : List Worklog
deriving DecidableEq, Repr

/-- One record of the flat time-log list built by `fetch_time_logs`
(also the shape of an aggregated record: same four fields). -/
structure TimeLog where
  assignee : String
  ticketNumber : String
  ticketDescription : String
  hoursLogged : ℚ
deriving DecidableEq, Repr

/-- The per-issue, per-worklog loop of `fetch_time_logs`: for each issue
returned by the search, each worklog whose date lies in
`[startDate, endDate]` (inclusive, checked locally) yields a record whose
hours are `timeSpentSeconds / 3600` with no rounding. -/
def fetch_time_logs (issues : List Issue) (startDate endDate : Date) :
    List TimeLog :=
  issues.flatMap fun issue =>
    issue.worklogs.filterMap fun w =>
      if dateLe startDate w.startedDate ∧ dateLe w.startedDate endDate then
        some ⟨w.authorDisplayName, issue.key, issue.summary,
              (w.timeSpentSeconds : ℚ) / 3600⟩
      else Option.none

/-- The grouping key of `aggregate_time_logs`:
(Assignee, Ticket Number, Ticket Description). -/
abbrev Key := String × String × String

/-- The grouping key of one time-log record. -/
def keyOf (t : TimeLog) : Key :=
  (t.assignee, t.ticketNumber, t.ticketDescription)

/-- Strict lexicographic order on grouping keys, the order in which pandas
`groupby(sort=True)` lists the distinct key tuples (Python compares strings
code-point-wise, as Lean's `String` order does). -/
def keyLt (a b : Key) : Prop :=
  a.1 < b.1 ∨ (a.1 = b.1 ∧
    (a.2.1 < b.2.1 ∨ (a.2.1 = b.2.1 ∧ a.2.2 < b.2.2)))

instance : DecidableRel keyLt := fun a b =>
  decidable_of_iff
    (a.1.toList < b.1.toList ∨ (a.1 = b.1 ∧
      (a.2.1.toList < b.2.1.toList ∨ (a.2.1 = b.2.1 ∧ a.2.2.toList < b.2.2.toList))))
    (by simp [keyLt])

/-- Insert a key into a strictly increasing list of keys, keeping it
strictly increasing (dropping a duplicate). -/
def insertKey (k : Key) : List Key → List Key
  | [] => [k]
  | k' :: ks =>
      if keyLt k k' then k :: k' :: ks
      else if k = k' then k' :: ks
      else k' :: insertKey k ks

/-- The distinct grouping keys of a record list, in increasing order: the
index produced by `df.groupby([...])` (pandas sorts group keys). -/
def sortedKeys (logs : List TimeLog) : List Key :=
  (logs.map keyOf).foldl (fun acc k => insertKey k acc) []

/-- Rounding to 2 decimal places, applied by `.round(2)` to each group's
summed hours.  (Ties at the third decimal round half-up here; the spec
leaves the tie rule open, and no claim depends on it.) -/
def round2 (q : ℚ) : ℚ :=
  ((round (q * 100) : ℤ) : ℚ) / 100

/-- The aggregated record of one group: the key's three fields, and the
full-precision sum of the group's hours rounded to 2 decimals. -/
def aggRecord (logs : List TimeLog) (k : Key) : TimeLog :=
  { assignee := k.1
    ticketNumber := k.2.1
    ticketDescription := k.2.2
    hoursLogged :=
      round2 (((logs.filter fun t => keyOf t = k).map TimeLog.hoursLogged).sum) }

/-- `aggregate_time_logs`: empty input returns `[]`; otherwise group by
(Assignee, Ticket Number, Ticket Description), sum each group's hours,
sort by the keys, and round each sum to 2 decimals. -/
def aggregate_time_logs (logs : List TimeLog) : List TimeLog :=
  if logs = [] then []
  else (sortedKeys logs).map (aggRecord logs)

/-- What `save_time_logs` does to the filesystem and terminal, in place of
the real side effects: either no write (with the printed notice), or one
file written in the given format. -/
inductive SaveEffect where
  | noWrite (notice : String)
  | writeCsv (filename : String)
  | writeExcel (filename : String)
deriving DecidableEq, Repr

/-- Whether the effect wrote a spreadsheet file. -/
def SaveEffect.isExcel : SaveEffect → Bool
  | .writeExcel _ => true
  | _ => false

/-- Whether the effect wrote a delimited csv file. -/
def SaveEffect.isCsv : SaveEffect → Bool
  | .writeCsv _ => true
  | _ => false

/-- Python `output_format.lower()` (ASCII range, which is all the format
comparison ever looks at). -/
def strToLower (s : String) : String :=
  String.mk (s.data.map Char.toLower)

/-- Python `f"{m:02d}"`: the month zero-padded to two digits. -/
def pad2 (m : ℕ) : String :=
  if m < 10 then "0" ++ toString m else toString m

/-- Python `strftime('%Y')`: the year zero-padded to four digits. -/
def pad4 (y : ℕ) : String :=
  if y < 10 then "000" ++ toString y
  else if y < 100 then "00" ++ toString y
  else if y < 1000 then "0" ++ toString y
  else toString y

/-- The `base_filename` computed by `save_time_logs`: the configured stem
plus the validated year and zero-padded month of the month spec (Python's
`if target_date:` treats `""` like `None`, falling back to the current
date, formatted by `strftime('%Y_%m')`).  A `ValueError` from validation
propagates.  (A string input never validates to `None`, so that match arm
is unreachable.) -/
def base_filename (currentYear : ℕ) (currentDate : Date) (stem : String)
    (targetDate : Option String) : Except DateError String :=
  match targetDate with
  | some d =>
      if d = "" then
        .ok (stem ++ "_" ++ pad4 currentDate.year ++ "_" ++ pad2 currentDate.month)
      else
        match validate_date_format currentYear (.pyStr d) with
        | .error e => .error e
        | .ok Option.none => .error (.invalidFormat "unreachable")
        | .ok (some (y, m)) =>
            .ok (stem ++ "_" ++ toString y ++ "_" ++ pad2 m)
  | Option.none =>
      .ok (stem ++ "_" ++ pad4 currentDate.year ++ "_" ++ pad2 currentDate.month)

/-- The format branch of `save_time_logs`: `.xlsx` exactly when
`output_format.lower() == 'excel'`, else `.csv` (any unrecognized format
falls through to the `else` and writes csv, with no error). -/
def addExt (fmt b : String) : SaveEffect :=
  if strToLower fmt = "excel" then .writeExcel (b ++ ".xlsx")
  else .writeCsv (b ++ ".csv")

/-- `save_time_logs`: empty records print a notice and write nothing (the
check precedes everything else, so no month spec or format can change
that); otherwise one file named `base_filename` plus the format's
extension is written. -/
def save_time_logs (currentYear : ℕ) (currentDate : Date) (stem : String)
    (records : List TimeLog) (targetDate : Option String) (fmt : String) :
    Except DateError SaveEffect :=
  if records = [] then .ok (.noWrite "No time logs found for the specified month.")
  else (base_filename currentYear currentDate stem targetDate).map (addExt fmt)

/-! ### Order lemmas for the grouping key -/

theorem keyLt_irrefl (a : Key) : ¬ keyLt a a := by
  rintro (h | ⟨-, h | ⟨-, h⟩⟩) <;> exact lt_irrefl _ h

theorem keyLt_trans {a b c : Key} (h1 : keyLt a b) (h2 : keyLt b c) : keyLt a c := by
  rcases h1 with h1 | ⟨e1, h1⟩ <;> rcases h2 with h2 | ⟨e2, h2⟩
  · exact Or.inl (lt_trans h1 h2)
  · exact Or.inl (by rw [← e2]; exact h1)
  · exact Or.inl (by rw [e1]; exact h2)
  · refine Or.inr ⟨e1.trans e2, ?_⟩
    rcases h1 with h1 | ⟨f1, h1⟩ <;> rcases h2 with h2 | ⟨f2, h2⟩
    · exact Or.inl (lt_trans h1 h2)
    · exact Or.inl (by rw [← f2]; exact h1)
    · exact Or.inl (by rw [f1]; exact h2)
    · exact Or.inr ⟨f1.trans f2, lt_trans h1 h2⟩

theorem keyLt_asymm {a b : Key} (h : keyLt a b) : ¬ keyLt b a :=
  fun h' => keyLt_irrefl a (keyLt_trans h h')

theorem keyLt_ne {a b : Key} (h : keyLt a b) : a ≠ b := by
  rintro rfl; exact keyLt_irrefl a h

theorem keyLt_connex {a b : Key} (h : a ≠ b) : keyLt a b ∨ keyLt b a := by
  obtain ⟨a1, a2, a3⟩ := a
  obtain ⟨b1, b2, b3⟩ := b
  rcases lt_trichotomy a1 b1 with h1 | rfl | h1
  · exact Or.inl (Or.inl h1)
  · rcases lt_trichotomy a2 b2 with h2 | rfl | h2
    · exact Or.inl (Or.inr ⟨rfl, Or.inl h2⟩)
    · rcases lt_trichotomy a3 b3 with h3 | rfl | h3
      · exact Or.inl (Or.inr ⟨rfl, Or.inr ⟨rfl, h3⟩⟩)
      · exact absurd rfl h
      · exact Or.inr (Or.inr ⟨rfl, Or.inr ⟨rfl, h3⟩⟩)
    · exact Or.inr (Or.inr ⟨rfl, Or.inl h2⟩)
  · exact Or.inr (Or.inl h1)

/-! ### Lemmas about sorted-unique key insertion -/

theorem mem_insertKey (a k : Key) (l : List Key) :
    a ∈ insertKey k l ↔ a = k ∨ a ∈ l := by
  induction l with
  | nil => simp [insertKey]
  | cons k' ks ih =>
      simp only [insertKey]
      split
      · simp [List.mem_cons]
      · split
        · rename_i heq
          subst heq
          simp only [List.mem_cons]
          tauto
        · simp only [List.mem_cons, ih]
          tauto

theorem pairwise_insertKey {k : Key} {l : List Key} (h : l.Pairwise keyLt) :
    (insertKey k l).Pairwise keyLt := by
  induction l with
  | nil => simp [insertKey]
  | cons k' ks ih =>
      rw [List.pairwise_cons] at h
      obtain ⟨hk', hks⟩ := h
      simp only [insertKey]
      split
      · rename_i hlt
        refine List.Pairwise.cons ?_ (List.Pairwise.cons hk' hks)
        intro x hx
        rcases List.mem_cons.mp hx with rfl | hx
        · exact hlt
        · exact keyLt_trans hlt (hk' x hx)
      · split
        · exact List.Pairwise.cons hk' hks
        · rename_i hnlt hne
          refine List.Pairwise.cons ?_ (ih hks)
          intro x hx
          rcases (mem_insertKey x k ks).mp hx with rfl | hx
          · rcases keyLt_connex (fun h => hne h.symm) with h | h
            · exact h
            · exact absurd h hnlt
          · exact hk' x hx

theorem insertKey_append {k : Key} : ∀ {l : List Key},
    (∀ a ∈ l, keyLt a k) → insertKey k l = l ++ [k] := by
  intro l
  induction l with
  | nil => intro _; rfl
  | cons k' ks ih =>
      intro h
      have h1 : keyLt k' k := h k' (List.mem_cons_self _ _)
      simp only [insertKey]
      rw [if_neg (keyLt_asymm h1), if_neg (fun he => keyLt_irrefl _ (he ▸ h1)),
        ih (fun a ha => h a (List.mem_cons_of_mem _ ha))]
      simp

theorem mem_foldl_insertKey (a : Key) : ∀ (ks acc : List Key),
    a ∈ ks.foldl (fun acc k => insertKey k acc) acc ↔ a ∈ ks ∨ a ∈ acc := by
  intro ks
  induction ks with
  | nil => simp
  | cons k ks ih =>
      intro acc
      rw [List.foldl_cons, ih, mem_insertKey]
      simp only [List.mem_cons]
      tauto

theorem pairwise_foldl_insertKey : ∀ (ks acc : List Key), acc.Pairwise keyLt →
    (ks.foldl (fun acc k => insertKey k acc) acc).Pairwise keyLt := by
  intro ks
  induction ks with
  | nil => intro acc h; exact h
  | cons k ks ih =>
      intro acc h
      rw [List.foldl_cons]
      exact ih _ (pairwise_insertKey h)

theorem foldl_insertKey_of_pairwise : ∀ (ks acc : List Key),
    (acc ++ ks).Pairwise keyLt →
    ks.foldl (fun acc k => insertKey k acc) acc = acc ++ ks := by
  intro ks
  induction ks with
  | nil => intro acc _; simp
  | cons k ks ih =>
      intro acc h
      rw [List.foldl_cons]
      have hlt : ∀ a ∈ acc, keyLt a k := by
        intro a ha
        exact (List.pairwise_append.mp h).2.2 a ha k (List.mem_cons_self _ _)
      rw [insertKey_append hlt]
      have he : (acc ++ [k]) ++ ks = acc ++ k :: ks := by simp
      rw [ih (acc ++ [k]) (by rw [he]; exact h), he]

/-! ### The grouped keys of an aggregation -/

theorem mem_sortedKeys {a : Key} {logs : List TimeLog} :
    a ∈ sortedKeys logs ↔ a ∈ logs.map keyOf := by
  unfold sortedKeys
  rw [mem_foldl_insertKey]
  simp

theorem pairwise_sortedKeys (logs : List TimeLog) :
    (sortedKeys logs).Pairwise keyLt :=
  pairwise_foldl_insertKey _ _ List.Pairwise.nil

theorem sortedKeys_of_pairwise {ks : List Key} (h : ks.Pairwise keyLt) :
    ks.foldl (fun acc k => insertKey k acc) [] = ks :=
  foldl_insertKey_of_pairwise ks [] h

theorem keyOf_aggRecord (logs : List TimeLog) (k : Key) :
    keyOf (aggRecord logs k) = k := by
  obtain ⟨k1, k2, k3⟩ := k
  rfl

theorem map_keyOf_aggregate {logs : List TimeLog} (h : logs ≠ []) :
    (aggregate_time_logs logs).map keyOf = sortedKeys logs := by
  unfold aggregate_time_logs
  rw [if_neg h, List.map_map]
  exact List.map_congr_left (fun k _ => keyOf_aggRecord logs k) |>.trans (List.map_id _)

theorem round2_round2 (q : ℚ) : round2 (round2 q) = round2 q := by
  unfold round2
  rw [div_mul_cancel₀ _ (by norm_num : (100 : ℚ) ≠ 0), round_intCast]

theorem filter_eq_singleton_of_pairwise :
    ∀ {ks : List Key}, ks.Pairwise keyLt → ∀ {k : Key}, k ∈ ks →
      ks.filter (fun x => x = k) = [k] := by
  intro ks
  induction ks with
  | nil => intro _ k hk; simp at hk
  | cons k' ks ih =>
      intro h k hk
      rw [List.pairwise_cons] at h
      rcases List.mem_cons.mp hk with rfl | hk
      · rw [List.filter_cons_of_pos (by simp)]
        have hnil : ks.filter (fun x => x = k) = [] := by
          apply List.filter_eq_nil_iff.mpr
          intro x hx
          simp only [decide_eq_true_eq]
          exact fun he => (keyLt_ne (h.1 x hx)) he.symm
        rw [hnil]
      · have hne : ¬ (decide (k' = k) = true) := by
          simp only [decide_eq_true_eq]
          exact keyLt_ne (h.1 k hk)
        rw [List.filter_cons, if_neg hne, ih h.2 hk]

theorem filter_aggregate_by_key {logs : List TimeLog} {k : Key}
    (hl : logs ≠ []) (hk : k ∈ sortedKeys logs) :
    (aggregate_time_logs logs).filter (fun t => keyOf t = k) = [aggRecord logs k] := by
  unfold aggregate_time_logs
  rw [if_neg hl, List.filter_map]
  have hcongr : (sortedKeys logs).filter ((fun t => decide (keyOf t = k)) ∘ aggRecord logs)
      = (sortedKeys logs).filter (fun x => decide (x = k)) :=
    List.filter_congr (fun x _ => by simp only [Function.comp_apply, keyOf_aggRecord])
  rw [hcongr, filter_eq_singleton_of_pairwise (pairwise_sortedKeys logs) hk]
  rfl

/-! ### The aggregation claims -/

/-- C1: `aggregate_time_logs` produces exactly one output record per
distinct (assignee, ticket, summary) triple of the input — the output keys
are duplicate-free and are exactly the input's keys — and each output's
hours equal the full-precision sum of the hours of the input records
sharing that triple, rounded to 2 decimals after summation; the empty
input yields the empty output. -/
theorem aggregate_groups_and_sums (logs : List TimeLog) :
    ((aggregate_time_logs logs).map keyOf).Nodup
  ∧ (∀ k : Key, k ∈ (aggregate_time_logs logs).map keyOf ↔ k ∈ logs.map keyOf)
  ∧ (∀ r ∈ aggregate_time_logs logs,
      r.hoursLogged =
        round2 (((logs.filter fun t => keyOf t = keyOf r).map TimeLog.hoursLogged).sum))
  ∧ aggregate_time_logs ([] : List TimeLog) = [] := by
  by_cases hl : logs = []
  · subst hl
    exact ⟨by simp [aggregate_time_logs], by simp [aggregate_time_logs],
      by intro r hr; simp [aggregate_time_logs] at hr, rfl⟩
  · refine ⟨?_, ?_, ?_, rfl⟩
    · rw [map_keyOf_aggregate hl]
      exact (pairwise_sortedKeys logs).imp (fun h => keyLt_ne h)
    · intro k
      rw [map_keyOf_aggregate hl, mem_sortedKeys]
    · intro r hr
      unfold aggregate_time_logs at hr
      rw [if_neg hl] at hr
      obtain ⟨k, hk, rfl⟩ := List.mem_map.mp hr
      rw [keyOf_aggRecord]
      rfl

/-- C2: the output of `aggregate_time_logs` is sorted by assignee
(case-sensitive code-point order, ascending) then by ticket number
(ascending), and identical inputs produce identical output sequences. -/
theorem aggregate_sorted_deterministic (logs : List TimeLog) :
    (aggregate_time_logs logs).Pairwise (fun a b =>
      a.assignee < b.assignee ∨ (a.assignee = b.assignee ∧ a.ticketNumber ≤ b.ticketNumber))
  ∧ (∀ logs2 : List TimeLog, logs2 = logs →
      aggregate_time_logs logs2 = aggregate_time_logs logs) := by
  constructor
  · by_cases hl : logs = []
    · subst hl; simp [aggregate_time_logs]
    · unfold aggregate_time_logs
      rw [if_neg hl, List.pairwise_map]
      refine (pairwise_sortedKeys logs).imp ?_
      intro a b h
      rcases h with h | ⟨e, h | ⟨e2, _⟩⟩
      · exact Or.inl h
      · exact Or.inr ⟨e, le_of_lt h⟩
      · exact Or.inr ⟨e, le_of_eq e2⟩
  · intro logs2 h
    rw [h]

/-- C9: `aggregate_time_logs` is idempotent — re-aggregating the
aggregated records (each its own single-record group) returns the same
sequence with the same totals. -/
theorem aggregate_idempotent (logs : List TimeLog) :
    aggregate_time_logs (aggregate_time_logs logs) = aggregate_time_logs logs := by
  by_cases hl : logs = []
  · subst hl; rfl
  · by_cases hA0 : aggregate_time_logs logs = []
    · rw [hA0]; rfl
    · have hA : aggregate_time_logs logs = (sortedKeys logs).map (aggRecord logs) := by
        unfold aggregate_time_logs; rw [if_neg hl]
      have hkeys : (aggregate_time_logs logs).map keyOf = sortedKeys logs :=
        map_keyOf_aggregate hl
      have hsk : sortedKeys (aggregate_time_logs logs) = sortedKeys logs := by
        unfold sortedKeys
        rw [hkeys]
        exact sortedKeys_of_pairwise (pairwise_sortedKeys logs)
      rw [show aggregate_time_logs (aggregate_time_logs logs) =
            if aggregate_time_logs logs = [] then []
            else (sortedKeys (aggregate_time_logs logs)).map
              (aggRecord (aggregate_time_logs logs)) from rfl]
      rw [if_neg hA0, hsk]
      conv_rhs => rw [hA]
      apply List.map_congr_left
      intro k hk
      have hfilter : (aggregate_time_logs logs).filter (fun t => keyOf t = k)
          = [aggRecord logs k] := filter_aggregate_by_key hl hk
      unfold aggRecord
      rw [hfilter]
      have hsum : (([aggRecord logs k].map TimeLog.hoursLogged)).sum
          = (aggRecord logs k).hoursLogged := by simp
      rw [hsum]
      show TimeLog.mk _ _ _ (round2 (round2 _)) = _
      rw [round2_round2]

/-! ### The validator claims -/

/-- C3: the claim that every string deviating from the exact
`dddd-dd` shape fails with InvalidFormat is right about the intent but
wrong about the code: Python's `$` anchor also matches just before a
trailing newline, and `int` ignores trailing whitespace, so
`validate_date_format("2024-03\n")` returns `(2024, 3)` even though the
string does not match the exact 4-digits, `-`, 2-digits shape. -/
theorem validate_accepts_trailing_newline :
    matchesExact "2024-03\n" = false
  ∧ validate_date_format 2026 (.pyStr "2024-03\n") = .ok (some (2024, 3)) :=
  ⟨by decide, rfl⟩

/-- Apart from the `$`/trailing-newline slip, the validator's error cases
are as specified: non-string and empty inputs and regex failures raise
InvalidFormat, an accepted string with year outside
`[2000, currentYear + 1]` raises YearOutOfRange naming the bound, one
with month outside `[1, 12]` raises MonthOutOfRange, and nothing else
fails. -/
theorem validate_failure_cases (cy : ℕ) :
    validate_date_format cy .pyOther =
      .error (.invalidFormat "Date must be a string in format YYYY-MM (e.g., 2024-03)")
  ∧ validate_date_format cy (.pyStr "") =
      .error (.invalidFormat "Date string cannot be empty")
  ∧ (∀ s : String, matchesYYYYMM s = false → s ≠ "" →
      validate_date_format cy (.pyStr s) =
        .error (.invalidFormat "Date must be in format YYYY-MM (e.g., 2024-03)"))
  ∧ (∀ s : String, matchesYYYYMM s = true →
      (yearOf s < 2000 ∨ cy + 1 < yearOf s) →
      validate_date_format cy (.pyStr s) =
        .error (.yearOutOfRange s!"Year must be between 2000 and {cy + 1}"))
  ∧ (∀ s : String, matchesYYYYMM s = true →
      2000 ≤ yearOf s → yearOf s ≤ cy + 1 →
      (monthOf s < 1 ∨ 12 < monthOf s) →
      validate_date_format cy (.pyStr s) =
        .error (.monthOutOfRange "Month must be between 01 and 12")) := by
  refine ⟨rfl, rfl, ?_, ?_, ?_⟩
  · intro s hm hs
    simp only [validate_date_format]
    rw [if_neg hs, if_neg (by rw [hm]; exact Bool.false_ne_true)]
  · intro s hm hy
    simp only [validate_date_format]
    rw [if_neg (by rintro rfl; simp [matchesYYYYMM, matchesExact] at hm),
      if_pos hm, if_pos hy]
  · intro s hm hy1 hy2 hmo
    simp only [validate_date_format]
    rw [if_neg (by rintro rfl; simp [matchesYYYYMM, matchesExact] at hm),
      if_pos hm, if_neg (by omega), if_pos hmo]

/-- C4: `validate_date_format(None)` returns `None`, and every string of
the exact `dddd-dd` shape whose year lies in `[2000, currentYear + 1]`
and whose month lies in `[1, 12]` validates to its `(year, month)`
pair. -/
theorem validate_ok (cy : ℕ) (s : String) (hm : matchesExact s = true)
    (hy1 : 2000 ≤ yearOf s) (hy2 : yearOf s ≤ cy + 1)
    (hm1 : 1 ≤ monthOf s) (hm2 : monthOf s ≤ 12) :
    validate_date_format cy .pyNone = .ok Option.none
  ∧ validate_date_format cy (.pyStr s) = .ok (some (yearOf s, monthOf s)) := by
  refine ⟨rfl, ?_⟩
  have hs : ¬ (s = "") := by
    rintro rfl
    simp [matchesExact] at hm
  have hmm : matchesYYYYMM s = true := by
    unfold matchesYYYYMM
    rw [hm, Bool.true_or]
  simp only [validate_date_format]
  rw [if_neg hs, if_pos hmm, if_neg (by omega), if_neg (by omega)]

/-- C4 witness: `validate_date_format(None) = None` and
`validate_date_format("2024-03") = (2024, 3)` with current year 2026. -/
theorem validate_ok_witness :
    validate_date_format 2026 .pyNone = .ok Option.none
  ∧ validate_date_format 2026 (.pyStr "2024-03") = .ok (some (2024, 3)) :=
  validate_ok 2026 "2024-03" (by decide) (by decide) (by decide) (by decide) (by decide)

/-! ### The month-range claim -/

/-- C5: for months in `[1, 12]`, `get_month_range` returns day 1 of the
month and its true last calendar day — 31/30 by month, and for February
29 exactly in Gregorian leap years (divisible by 4, except centuries not
divisible by 400). -/
theorem get_month_range_spec (today : Date) (y m : ℕ) (_h1 : 1 ≤ m) (_h2 : m ≤ 12) :
    get_month_range today (some y) (some m) =
      (⟨y, m, 1⟩, ⟨y, m,
        if m = 2 then (if y % 4 = 0 ∧ (y % 100 ≠ 0 ∨ y % 400 = 0) then 29 else 28)
        else if m = 4 ∨ m = 6 ∨ m = 9 ∨ m = 11 then 30 else 31⟩) := by
  unfold get_month_range daysInMonth isLeapYear
  simp only [beq_iff_eq, Bool.or_eq_true, Bool.and_eq_true, bne_iff_ne, ne_eq,
    decide_eq_true_eq, or_assoc]

/-- C5 witness: February 2024 (a leap year) runs from 2024-02-01 to
2024-02-29. -/
theorem get_month_range_witness :
    get_month_range ⟨2026, 10, 12⟩ (some 2024) (some 2) =
      (⟨2024, 2, 1⟩, ⟨2024, 2, 29⟩) := by
  have h := get_month_range_spec ⟨2026, 10, 12⟩ 2024 2 (by decide) (by decide)
  simpa using h

/-! ### The fetcher claim -/

/-- C6: every record emitted by `fetch_time_logs` comes from a worklog of
a returned issue whose date lies in the inclusive `[startDate, endDate]`
range (out-of-range worklogs are dropped by the local filter), and its
hours equal the worklog's seconds divided by 3600 with no rounding. -/
theorem fetch_time_logs_spec (issues : List Issue) (s e : Date) (r : TimeLog)
    (hr : r ∈ fetch_time_logs issues s e) :
    ∃ i ∈ issues, ∃ w ∈ i.worklogs,
      dateLe s w.startedDate ∧ dateLe w.startedDate e ∧
      r.hoursLogged = (w.timeSpentSeconds : ℚ) / 3600 ∧
      r = ⟨w.authorDisplayName, i.key, i.summary, (w.timeSpentSeconds : ℚ) / 3600⟩ := by
  unfold fetch_time_logs at hr
  rw [List.mem_flatMap] at hr
  obtain ⟨i, hi, hr⟩ := hr
  rw [List.mem_filterMap] at hr
  obtain ⟨w, hw, hcond⟩ := hr
  by_cases hc : dateLe s w.startedDate ∧ dateLe w.startedDate e
  · rw [if_pos hc] at hcond
    obtain rfl := Option.some.inj hcond
    exact ⟨i, hi, w, hw, hc.1, hc.2, rfl, rfl⟩
  · rw [if_neg hc] at hcond
    exact Option.noConfusion hcond

/-- C6 witness: one issue with one in-range worklog of 3600 seconds
produces the record with 3600/3600 = 1 hour. -/
theorem fetch_time_logs_witness :
    ∃ i ∈ [Issue.mk "TR-123" "Test Ticket" [⟨"Test User", ⟨2024, 3, 15⟩, 3600⟩]],
      ∃ w ∈ i.worklogs,
        dateLe ⟨2024, 3, 1⟩ w.startedDate ∧ dateLe w.startedDate ⟨2024, 3, 31⟩ ∧
        (TimeLog.mk "Test User" "TR-123" "Test Ticket"
            (((3600 : ℕ) : ℚ) / 3600)).hoursLogged = (w.timeSpentSeconds : ℚ) / 3600 ∧
        TimeLog.mk "Test User" "TR-123" "Test Ticket" (((3600 : ℕ) : ℚ) / 3600) =
          ⟨w.authorDisplayName, i.key, i.summary, (w.timeSpentSeconds : ℚ) / 3600⟩ :=
  fetch_time_logs_spec _ ⟨2024, 3, 1⟩ ⟨2024, 3, 31⟩ _ (List.Mem.head _)

/-! ### The report-writer claims -/

/-- C7: writing an empty aggregated list performs no file write at all —
for every month spec and every format value the result is the
"nothing to report" notice, with no filename produced. -/
theorem save_empty_no_write (cy : ℕ) (cd : Date) (stem : String)
    (td : Option String) (fmt : String) :
    save_time_logs cy cd stem [] td fmt =
      .ok (.noWrite "No time logs found for the specified month.") := rfl

/-- C8: for a non-empty record list the output filename is the configured
stem, the validated year and zero-padded 2-digit month of the month spec
(or the current year/month when the spec is null), and the format's
extension. -/
theorem save_filename_spec (cy : ℕ) (cd : Date) (stem : String)
    (records : List TimeLog) (d : String) (y m : ℕ) (fmt : String)
    (hne : records ≠ [])
    (hv : validate_date_format cy (.pyStr d) = .ok (some (y, m))) :
    (strToLower fmt ≠ "excel" →
      save_time_logs cy cd stem records (some d) fmt =
        .ok (.writeCsv (stem ++ "_" ++ toString y ++ "_" ++ pad2 m ++ ".csv")))
  ∧ (strToLower fmt = "excel" →
      save_time_logs cy cd stem records (some d) fmt =
        .ok (.writeExcel (stem ++ "_" ++ toString y ++ "_" ++ pad2 m ++ ".xlsx")))
  ∧ save_time_logs cy cd stem records Option.none fmt =
      (if strToLower fmt = "excel"
       then .ok (.writeExcel (stem ++ "_" ++ pad4 cd.year ++ "_" ++ pad2 cd.month ++ ".xlsx"))
       else .ok (.writeCsv (stem ++ "_" ++ pad4 cd.year ++ "_" ++ pad2 cd.month ++ ".csv"))) := by
  have hd : ¬ (d = "") := by
    rintro rfl
    simp [validate_date_format] at hv
  have hbase : base_filename cy cd stem (some d) =
      .ok (stem ++ "_" ++ toString y ++ "_" ++ pad2 m) := by
    simp only [base_filename]
    rw [if_neg hd, hv]
  refine ⟨?_, ?_, ?_⟩
  · intro hfmt
    unfold save_time_logs
    rw [if_neg hne, hbase]
    show Except.ok (addExt fmt _) = _
    unfold addExt
    rw [if_neg hfmt]
  · intro hfmt
    unfold save_time_logs
    rw [if_neg hne, hbase]
    show Except.ok (addExt fmt _) = _
    unfold addExt
    rw [if_pos hfmt]
  · unfold save_time_logs
    rw [if_neg hne]
    show Except.ok (addExt fmt _) = _
    unfold addExt
    by_cases hf : strToLower fmt = "excel"
    · rw [if_pos hf, if_pos hf]
    · rw [if_neg hf, if_neg hf]

/-- C8 witness: month "2024-03" with stem "test_time_logs" and csv format
yields the filename `test_time_logs_2024_03.csv`. -/
theorem save_filename_witness :
    save_time_logs 2026 ⟨2026, 10, 12⟩ "test_time_logs"
        [⟨"a", "b", "c", 1⟩] (some "2024-03") "csv" =
      .ok (.writeCsv "test_time_logs_2024_03.csv") :=
  (save_filename_spec 2026 ⟨2026, 10, 12⟩ "test_time_logs"
      [⟨"a", "b", "c", 1⟩] "2024-03" 2024 3 "csv"
      (by simp) rfl).1 (by decide)

/-- C10: for a non-empty record list (and a month spec that validates,
or none), the writer produces a spreadsheet file exactly when the format
string lowercases to "excel"; every other format value — "json"
included — silently falls back to a csv write, raising no error. -/
theorem save_format_fallback (cy : ℕ) (cd : Date) (stem : String)
    (records : List TimeLog) (td : Option String) (fmt : String)
    (hne : records ≠ [])
    (hok : ∀ d, td = some d → d ≠ "" →
      ∃ p, validate_date_format cy (.pyStr d) = .ok (some p)) :
    ((∃ fn, save_time_logs cy cd stem records td fmt = .ok (.writeExcel fn)) ↔
      strToLower fmt = "excel")
  ∧ (strToLower fmt ≠ "excel" →
      ∃ fn, save_time_logs cy cd stem records td fmt = .ok (.writeCsv fn)) := by
  obtain ⟨b, hb⟩ : ∃ b, base_filename cy cd stem td = .ok b := by
    match td with
    | Option.none => exact ⟨_, rfl⟩
    | some d =>
        by_cases hd : d = ""
        · subst hd
          refine ⟨stem ++ "_" ++ pad4 cd.year ++ "_" ++ pad2 cd.month, ?_⟩
          simp [base_filename]
        · obtain ⟨⟨y, m⟩, hv⟩ := hok d rfl hd
          exact ⟨_, by simp only [base_filename]; rw [if_neg hd, hv]⟩
  unfold save_time_logs
  rw [if_neg hne, hb]
  show ((∃ fn, Except.ok (addExt fmt b) = .ok (.writeExcel fn)) ↔ strToLower fmt = "excel")
    ∧ (strToLower fmt ≠ "excel" → ∃ fn, Except.ok (addExt fmt b) = .ok (.writeCsv fn))
  unfold addExt
  by_cases hf : strToLower fmt = "excel"
  · rw [if_pos hf]
    exact ⟨⟨fun _ => hf, fun _ => ⟨b ++ ".xlsx", rfl⟩⟩, fun h => absurd hf h⟩
  · rw [if_neg hf]
    refine ⟨⟨?_, fun h => absurd h hf⟩, fun _ => ⟨b ++ ".csv", rfl⟩⟩
    rintro ⟨fn, hfn⟩
    exact SaveEffect.noConfusion (Except.ok.inj hfn)

/-- C10 witness: a non-empty list written with the unrecognized format
"json" falls back to a csv file without error. -/
theorem save_format_fallback_witness :
    ∃ fn, save_time_logs 2026 ⟨2026, 10, 12⟩ "p" [⟨"a", "b", "c", 1⟩]
        Option.none "json" = .ok (.writeCsv fn) :=
  (save_format_fallback 2026 ⟨2026, 10, 12⟩ "p" [⟨"a", "b", "c", 1⟩]
      Option.none "json" (by simp)
      (fun d h _ => Option.noConfusion h)).2 (by decide)

end JiraTimeLogs
